import Mathlib

/-
Verification of the GDP waterfall chart data pipeline.

The source is a D3 chart application. Its data layer, which this file
embeds, consists of:
  - a robust numeric normalizer parseNum (comma to dot, strip stray
    characters, parseFloat, finiteness check);
  - JavaScript number coercion (the unary plus on the year column);
  - header-key inference for the country, year and GDP columns;
  - row cleaning (drop rows with a falsy country or NaN year);
  - grouping by country and per-country waterfall construction
    (script.js buildWaterfall, which first filters out rows whose GDP
    is NaN, plus the cumulative start and end pass in draw);
  - an alternative waterfall construction computeWaterfall from a
    second variant of the script, which does not filter NaN GDP rows
    and instead coerces them to zero with a JavaScript or-default.

Modelling conventions: JavaScript strings are List Char; JavaScript
numbers are exact rationals, with NaN represented by Option (none) for
GDP values and by a dedicated JSNum sentinel where the code can also
produce infinities; IEEE-754 rounding of finite values is not modelled,
but the overflow-to-infinity threshold of double precision is, since the
normalizer checks isFinite on the parse result.  Unicode simple case
mapping sends only the ASCII letters N and A to n and a, so an
ASCII-only lowercase map is faithful for the single case-insensitive
comparison against the string nan.
-/

attribute [local semireducible] Rat.add Rat.sub Rat.mul Rat.inv Rat.ofScientific

/-- The JavaScript whitespace class: the characters matched by the regex
class backslash-s and removed by String.trim (WhiteSpace and
LineTerminator code points). -/
def jsIsWs (c : Char) : Bool :=
  c = ' ' || c = '\t' || c = '\n' || c = '\r' || c.toNat = 11 || c.toNat = 12 ||
  c.toNat = 0xA0 || c.toNat = 0x1680 ||
  (0x2000 ≤ c.toNat && c.toNat ≤ 0x200A) ||
  c.toNat = 0x2028 || c.toNat = 0x2029 || c.toNat = 0x202F ||
  c.toNat = 0x205F || c.toNat = 0x3000 || c.toNat = 0xFEFF

/-- JavaScript String.prototype.trim: drop leading and trailing whitespace. -/
def jsTrim (l : List Char) : List Char :=
  ((l.dropWhile jsIsWs).reverse.dropWhile jsIsWs).reverse

/-- ASCII lowercase map (sufficient for the comparisons the code makes,
see the header comment). -/
def lowerAscii (c : Char) : Char :=
  if 'A' ≤ c ∧ c ≤ 'Z' then Char.ofNat (c.toNat + 32) else c

def lowerL (l : List Char) : List Char := l.map lowerAscii

def isPrefixB : List Char → List Char → Bool
  | [], _ => true
  | _ :: _, [] => false
  | a :: as, b :: bs => a = b && isPrefixB as bs

/-- Does hay contain needle as a contiguous substring? -/
def containsSub (needle : List Char) : List Char → Bool
  | [] => needle.isEmpty
  | c :: t => isPrefixB needle (c :: t) || containsSub needle t

/-- Case-insensitive substring test: the regex test slash-needle-slash-i
on the key k. -/
def containsCI (k : List Char) (needle : List Char) : Bool :=
  containsSub (lowerL needle) (lowerL k)

/-- Case-insensitive whole-string equality: the anchored regex test. -/
def eqCI (a b : List Char) : Bool := lowerL a == lowerL b

/-- Value of a string of decimal digits. -/
def digitsVal (l : List Char) : ℕ :=
  l.foldl (fun a c => 10 * a + (c.toNat - 48)) 0

/-- Consume an optional exponent part (e or E, optional sign, digits)
after a parsed mantissa, multiplying or dividing by the power of ten.
An incomplete exponent (no digits after the marker) is left unconsumed,
as JavaScript parseFloat takes the longest valid literal prefix. -/
def applyExp (q : ℚ) (r : List Char) : ℚ × List Char :=
  match r with
  | [] => (q, [])
  | c :: t =>
    if c = 'e' ∨ c = 'E' then
      let st : Bool × List Char :=
        match t with
        | '-' :: u => (true, u)
        | '+' :: u => (false, u)
        | _ => (false, t)
      let ed := st.2.takeWhile Char.isDigit
      if ed.isEmpty then (q, c :: t)
      else
        (if st.1 then q / (10 : ℚ) ^ digitsVal ed else q * (10 : ℚ) ^ digitsVal ed,
         st.2.dropWhile Char.isDigit)
    else (q, c :: t)

/-- Longest-prefix parse of an unsigned decimal literal
(digits, optional fraction, optional exponent; or a bare fraction).
Returns the exact rational value and the unconsumed rest, or none when
no prefix forms a valid literal. -/
def parseUnsigned (v : List Char) : Option (ℚ × List Char) :=
  let ip := v.takeWhile Char.isDigit
  let r1 := v.dropWhile Char.isDigit
  if ip.isEmpty then
    match r1 with
    | '.' :: t =>
      let fd := t.takeWhile Char.isDigit
      if fd.isEmpty then none
      else
        some (applyExp ((digitsVal fd : ℚ) / (10 : ℚ) ^ fd.length)
          (t.dropWhile Char.isDigit))
    | _ => none
  else
    let fr : ℚ × List Char :=
      match r1 with
      | '.' :: t =>
        ((digitsVal (t.takeWhile Char.isDigit) : ℚ) / (10 : ℚ) ^ (t.takeWhile Char.isDigit).length,
         t.dropWhile Char.isDigit)
      | _ => (0, r1)
    some (applyExp ((digitsVal ip : ℚ) + fr.1) fr.2)

/-- JavaScript parseFloat on the already-stripped input of the
normalizer: skip whitespace, optional sign, then the longest valid
decimal-literal prefix; none models NaN.  The Infinity branch of
parseFloat is unreachable here because the normalizer strips every
letter other than e and E before calling it. -/
def jsParseFloat (v : List Char) : Option ℚ :=
  let v1 := v.dropWhile jsIsWs
  let sv : Bool × List Char :=
    match v1 with
    | '-' :: t => (true, t)
    | '+' :: t => (false, t)
    | _ => (false, v1)
  match parseUnsigned sv.2 with
  | none => none
  | some qr => some (if sv.1 then -qr.1 else qr.1)

/-- The overflow threshold of binary64 round-to-nearest-even: two to
the 1024 minus two to the 970, written as a literal so that concrete
evaluation stays within the reduction depth of the elaborator. -/
def dblOverflow : ℚ := 179769313486231580793728971405303415079934132710037826936173778980444968292764750946649017977587207096330286416692887910946555547851940402630657488671505820681908902000708383676273854845817711531764475730270069855571366959622842914819860834936475292719074168444365510704342711559699508093042880177904174497792

lemma dblOverflow_eq_pow : dblOverflow = (2 : ℚ) ^ 1024 - (2 : ℚ) ^ 970 := by
  rw [show ((2 : ℚ) ^ (1024 : ℕ)) = ((2 : ℚ) ^ (128 : ℕ)) ^ (8 : ℕ) by rw [← pow_mul],
      show ((2 : ℚ) ^ (970 : ℕ)) = ((2 : ℚ) ^ (97 : ℕ)) ^ (10 : ℕ) by rw [← pow_mul]]
  unfold dblOverflow
  norm_num

/-- A finite rational rounds to a finite double iff its magnitude is
below the overflow threshold of binary64 round-to-nearest-even. -/
def fitsDouble (q : ℚ) : Bool := |q| < dblOverflow

/-- The characters the normalizer keeps: digits, e, E, plus, dot, minus. -/
def numKeep (c : Char) : Bool :=
  c.isDigit || c = 'e' || c = 'E' || c = '+' || c = '.' || c = '-'

/-- The robust number parser parseNum of script.js: trim; empty or nan
(case-insensitive) gives NaN; strip whitespace; commas become dots;
strip everything outside the numeric character set; parseFloat; NaN
unless the result is finite.  none models NaN. -/
def parseNum (s : List Char) : Option ℚ :=
  let v := jsTrim s
  if v = [] ∨ lowerL v = "nan".data then none
  else
    let v1 := v.filter (fun c => !(jsIsWs c))
    let v2 := v1.map (fun c => if c = ',' then '.' else c)
    let v3 := v2.filter numKeep
    match jsParseFloat v3 with
    | none => none
    | some q => if fitsDouble q then some q else none

/-- A JavaScript number as the pipeline observes it: NaN, an infinity,
or a finite value (modelled exactly). -/
inductive JSNum where
  | nan : JSNum
  | posInf : JSNum
  | negInf : JSNum
  | num : ℚ → JSNum
deriving DecidableEq

def JSNum.isNaN : JSNum → Bool
  | .nan => true
  | _ => false

def isHexDigitB (c : Char) : Bool :=
  c.isDigit || ('a' ≤ c && c ≤ 'f') || ('A' ≤ c && c ≤ 'F')

def isOctDigitB (c : Char) : Bool := '0' ≤ c && c ≤ '7'

def isBinDigitB (c : Char) : Bool := c = '0' || c = '1'

def hexDigVal (c : Char) : ℕ :=
  if c.isDigit then c.toNat - 48
  else if 'a' ≤ c ∧ c ≤ 'f' then c.toNat - 87
  else c.toNat - 55

def radixFold (r : ℕ) (f : Char → ℕ) (l : List Char) : ℚ :=
  ((l.foldl (fun a c => r * a + f c) 0 : ℕ) : ℚ)

/-- Decimal tail of string-to-number coercion: optional sign, then
Infinity or a complete decimal literal; anything else is NaN. -/
def decTail (v : List Char) : JSNum :=
  let sv : Bool × List Char :=
    match v with
    | '-' :: t => (true, t)
    | '+' :: t => (false, t)
    | _ => (false, v)
  if sv.2 = "Infinity".data then (if sv.1 then .negInf else .posInf)
  else
    match parseUnsigned sv.2 with
    | some (q, []) =>
      if fitsDouble q then .num (if sv.1 then -q else q)
      else (if sv.1 then .negInf else .posInf)
    | _ => .nan

/-- JavaScript ToNumber on a string (the unary plus the code applies to
the year column): trim; empty is 0; hex, octal and binary integer
literals; otherwise a complete signed decimal literal or Infinity;
everything else is NaN. -/
def jsToNumber (s : List Char) : JSNum :=
  let v := jsTrim s
  match v with
  | [] => .num 0
  | '0' :: c :: t =>
    if c = 'x' ∨ c = 'X' then
      (if t ≠ [] ∧ t.all isHexDigitB then
        (if fitsDouble (radixFold 16 hexDigVal t) then .num (radixFold 16 hexDigVal t) else .posInf)
      else .nan)
    else if c = 'o' ∨ c = 'O' then
      (if t ≠ [] ∧ t.all isOctDigitB then .num (radixFold 8 hexDigVal t) else .nan)
    else if c = 'b' ∨ c = 'B' then
      (if t ≠ [] ∧ t.all isBinDigitB then .num (radixFold 2 hexDigVal t) else .nan)
    else decTail v
  | _ => decTail v

/-- A raw parsed DSV row: the header keys paired with the cell values,
in column order (property insertion order of the row object). -/
def Row : Type := List (List Char × List Char)

/-- Property read r of k on a row object: undefined (none) when the key
is absent or no key was selected. -/
def rowGet (r : Row) : Option (List Char) → Option (List Char)
  | none => none
  | some k => (r.find? (fun kv => kv.1 == k)).map (·.2)

/-- Object.keys of the first data row (the header keys, in order);
the code only reaches this after guarding against an empty table. -/
def headerKeysOf : List Row → List (List Char)
  | [] => []
  | r :: _ => r.map (·.1)

/-- JavaScript string or-default a or-else b: b when a is undefined or
the empty string. -/
def jsOrStr (a b : Option (List Char)) : Option (List Char) :=
  match a with
  | some s => if s.isEmpty then b else some s
  | none => b

/-- script.js country key: first key containing country
(case-insensitive), or-else the second column. -/
def countryKeySel (keys : List (List Char)) : Option (List Char) :=
  jsOrStr (keys.find? (fun k => containsCI k "country".data)) keys[1]?

/-- script.js year key: first key containing year (case-insensitive),
or-else the first key containing yr or year. -/
def yearKeySel (keys : List (List Char)) : Option (List Char) :=
  jsOrStr (keys.find? (fun k => containsCI k "year".data))
    (keys.find? (fun k => containsCI k "yr".data || containsCI k "year".data))

/-- script.js GDP key: first key equal to GDP (case-insensitive, whole
name), or-else the first key containing gdp. -/
def gdpKeySel (keys : List (List Char)) : Option (List Char) :=
  jsOrStr (keys.find? (fun k => eqCI k "GDP".data))
    (keys.find? (fun k => containsCI k "gdp".data))

/-- A cleaned record: country string, coerced year, normalized GDP.
An undefined country and an empty country string behave identically
everywhere (both falsy, both dropped), so both are the empty list. -/
structure Record where
  country : List Char
  year : JSNum
  GDP : Option ℚ
deriving DecidableEq

def jsToNumberU : Option (List Char) → JSNum
  | none => .nan
  | some s => jsToNumber s

def parseNumU : Option (List Char) → Option ℚ
  | none => none
  | some s => parseNum s

/-- The row-to-record map of script.js. -/
def toRecord (ck yk gk : Option (List Char)) (r : Row) : Record :=
  { country := (rowGet r ck).getD []
    year := jsToNumberU (rowGet r yk)
    GDP := parseNumU (rowGet r gk) }

/-- The filter of script.js: r.country truthy and year not NaN. -/
def keepB (r : Record) : Bool := !r.country.isEmpty && !r.year.isNaN

/-- The cleaned row list of script.js: infer keys from the header, map
every raw row to a record, keep the rows that pass the filter. -/
def cleanedOf (data : List Row) : List Record :=
  let ks := headerKeysOf data
  (data.map (toRecord (countryKeySel ks) (yearKeySel ks) (gdpKeySel ks))).filter keepB

/-- The year comparator (a, b) => a.year - b.year as a total boolean
order on JSNum.  NaN years are removed by the filter before any sort,
so the NaN rows of this table are never exercised. -/
def jsLeY : JSNum → JSNum → Bool
  | .num a, .num b => a ≤ b
  | .negInf, _ => true
  | _, .posInf => true
  | .posInf, _ => false
  | _, .negInf => false
  | .nan, _ => true
  | _, .nan => true

/-- Stable insertion (equal years keep their original relative order,
matching the stable Array.prototype.sort). -/
def insertY (x : Record) : List Record → List Record
  | [] => [x]
  | y :: ys => if jsLeY y.year x.year then y :: insertY x ys else x :: y :: ys

def sortY (l : List Record) : List Record :=
  l.foldl (fun acc r => insertY r acc) []

/-- d3.group: an insertion-ordered map from country to its rows. -/
def groupAdd : List (List Char × List Record) → Record → List (List Char × List Record)
  | [], r => [(r.country, [r])]
  | (k, l) :: t, r =>
    if k = r.country then (k, l ++ [r]) :: t else (k, l) :: groupAdd t r

def groupByCountry (rs : List Record) : List (List Char × List Record) :=
  rs.foldl groupAdd []

def lookupA (g : List (List Char × List Record)) (c : List Char) : Option (List Record) :=
  (g.find? (fun kv => kv.1 == c)).map (·.2)

inductive WKind where
  | base : WKind
  | increase : WKind
  | decrease : WKind
deriving DecidableEq

/-- A waterfall item as built by script.js buildWaterfall: the value is
the base GDP for the base item and the year-over-year delta otherwise.
The display label, the string of the year, carries no extra data and is
omitted. -/
structure WItem where
  year : JSNum
  value : ℚ
  type : WKind
deriving DecidableEq

/-- The sorted rows with a valid (non-NaN) GDP, as (year, GDP) pairs:
the filter on isNaN followed by the field reads of the loop. -/
def validOf (g : List (List Char × List Record)) (c : List Char) : List (JSNum × ℚ) :=
  (sortY ((lookupA g c).getD [])).filterMap (fun r => r.GDP.map (fun q => (r.year, q)))

/-- The delta loop of buildWaterfall: each consecutive pair of valid
entries yields one item whose value is the difference, classified
increase when the delta is at least zero and decrease otherwise. -/
def deltaItems : (JSNum × ℚ) → List (JSNum × ℚ) → List WItem
  | _, [] => []
  | p, c :: rest =>
    ⟨c.1, c.2 - p.2, if (0 : ℚ) ≤ c.2 - p.2 then .increase else .decrease⟩ ::
      deltaItems c rest

def mkItems : List (JSNum × ℚ) → List WItem
  | [] => []
  | f :: rest => ⟨f.1, f.2, .base⟩ :: deltaItems f rest

/-- script.js buildWaterfall: look the country up with an empty-list
fallback, sort by year, keep the valid-GDP rows; empty gives the empty
item list, otherwise the first valid row is the base and the rest are
deltas. -/
def buildWaterfall (g : List (List Char × List Record)) (c : List Char) : List WItem :=
  mkItems (validOf g c)

/-- A computed item of the cumulative pass in draw: the original item
plus start, end and cumulative.  In the source the value is guarded by
Number.isFinite with a zero fallback; buildWaterfall only ever emits
values derived from valid finite GDP numbers, and model values are
exact rationals, so the guard is the identity here. -/
structure CItem where
  year : JSNum
  value : ℚ
  type : WKind
  start : ℚ
  endVal : ℚ
  cumulative : ℚ
deriving DecidableEq

/-- The cumulative pass of draw.  The source special-cases index zero
with start 0 and cumulative initialized to the end; with the
accumulator seeded at 0 the general branch produces exactly the same
item, so one uniform recursion is faithful. -/
def computeCumulative : ℚ → List WItem → List CItem
  | _, [] => []
  | cum, it :: rest =>
    ⟨it.year, it.value, it.type, cum, cum + it.value, cum + it.value⟩ ::
      computeCumulative (cum + it.value) rest

/-- The full script.js data path for one country: clean, group, build
the waterfall, run the cumulative pass. -/
def pipelineWaterfall (data : List Row) (c : List Char) : List CItem :=
  computeCumulative 0 (buildWaterfall (groupByCountry (cleanedOf data)) c)

/-- A record as the second variant (computeWaterfall) consumes it. -/
structure PRecord where
  year : JSNum
  gdp : Option ℚ
deriving DecidableEq

inductive PType where
  | start : PType
  | increase : PType
  | decrease : PType
deriving DecidableEq

/-- An item of the second variant: its start item stores the raw gdp
(possibly NaN) as the value, delta items store the delta. -/
structure PItem where
  ptype : PType
  year : JSNum
  value : Option ℚ
  start : ℚ
  endVal : ℚ
deriving DecidableEq

/-- The JavaScript or-default gdp or-else 0: NaN becomes 0 (and a
stored 0 stays 0). -/
def orZero : Option ℚ → ℚ
  | none => 0
  | some q => q

/-- The delta loop of computeWaterfall: every row, valid or not,
produces an item; both neighbours are coerced with the or-default, so a
NaN gdp participates as zero. -/
def pDeltas : PRecord → List PRecord → List PItem
  | _, [] => []
  | p, c :: rest =>
    ⟨if (0 : ℚ) ≤ orZero c.gdp - orZero p.gdp then .increase else .decrease,
     c.year, some (orZero c.gdp - orZero p.gdp), orZero p.gdp, orZero c.gdp⟩ ::
      pDeltas c rest

/-- computeWaterfall of the second script variant: no NaN filtering;
the first row is always the start item and every later row yields a
delta item with NaN coerced to zero. -/
def computeWaterfall (dataSorted : List PRecord) : List PItem :=
  match dataSorted with
  | [] => []
  | d0 :: rest => ⟨.start, d0.year, d0.gdp, 0, orZero d0.gdp⟩ :: pDeltas d0 rest

/-- Whitespace removal written from the words of the specification
(remove all whitespace), for comparison with the source pipeline. -/
def stripWs : List Char → List Char
  | [] => []
  | c :: t => if jsIsWs c then stripWs t else c :: stripWs t

/-- Comma-to-decimal-point replacement written from the words of the
specification. -/
def commaToDot : List Char → List Char
  | [] => []
  | c :: t => (if c = ',' then '.' else c) :: commaToDot t

/-- Removal of every character outside the numeric set, written from
the words of the specification. -/
def keepNumeric : List Char → List Char
  | [] => []
  | c :: t => if numKeep c then c :: keepNumeric t else keepNumeric t

/-- The numeric normalizer as the specification words it: trim; if the
result is empty or case-insensitively equal to nan, not-a-number;
remove all whitespace; replace every comma with a decimal point; remove
every character outside digits, e, E, plus, dot, minus; parse as a
float; not-a-number unless the parse result is finite. -/
def parseNumSpec (s : List Char) : Option ℚ :=
  let v := jsTrim s
  if v = [] then none
  else if lowerL v = "nan".data then none
  else
    match jsParseFloat (keepNumeric (commaToDot (stripWs v))) with
    | none => none
    | some q => if fitsDouble q then some q else none

/-- The space of fixed fallbacks the specification allows for column
inference: a fixed position, a fixed literal name, or no key at all. -/
inductive CDefault where
  | pos : ℕ → CDefault
  | lit : List Char → CDefault
  | noKey : CDefault
deriving DecidableEq

def applyCDefault : CDefault → List (List Char) → Option (List Char)
  | .pos n, keys => keys[n]?
  | .lit s, _ => some s
  | .noKey, _ => none

/-- The year-column selection method as the specification describes it:
case-insensitive substring match on year, with a fixed positional or
literal default when no name matches. -/
def claimYearMethod (d : CDefault) (keys : List (List Char)) : Option (List Char) :=
  match keys.find? (fun k => containsCI k "year".data) with
  | some k => some k
  | none => applyCDefault d keys

/-- An integer literal in the sense of the row-cleaning contract: after
trimming, an optional sign followed by one or more decimal digits. -/
def isIntL (s : List Char) : Bool :=
  match jsTrim s with
  | [] => false
  | '-' :: t => !t.isEmpty && t.all Char.isDigit
  | '+' :: t => !t.isEmpty && t.all Char.isDigit
  | l => l.all Char.isDigit

/-- The three selected column keys, as a function of the parsed table:
the source computes each one from the ordered key list of the first
row only. -/
def keySelections (data : List Row) :
    Option (List Char) × Option (List Char) × Option (List Char) :=
  (countryKeySel (headerKeysOf data), yearKeySel (headerKeysOf data),
   gdpKeySel (headerKeysOf data))

/-- Default items for positional access in theorem statements. -/
def dW : WItem := ⟨.nan, 0, .base⟩

def dC : CItem := ⟨.nan, 0, .base, 0, 0, 0⟩

/-- Running totals of item values: the cumulative sum the draw pass
threads through the list. -/
def sumTake (l : List WItem) (i : ℕ) : ℚ :=
  ((l.take i).map WItem.value).sum

lemma cc_len (c : ℚ) (l : List WItem) : (computeCumulative c l).length = l.length := by
  induction l generalizing c with
  | nil => rfl
  | cons x xs ih => simp [computeCumulative, ih]

lemma sumTake_succ_cons (x : WItem) (xs : List WItem) (n : ℕ) :
    sumTake (x :: xs) (n + 1) = x.value + sumTake xs n := by
  simp [sumTake, List.take_succ_cons]

lemma cc_getD (c : ℚ) (l : List WItem) (i : ℕ) (h : i < l.length) :
    (computeCumulative c l).getD i dC =
      ⟨(l.getD i dW).year, (l.getD i dW).value, (l.getD i dW).type,
       c + sumTake l i, c + sumTake l (i + 1), c + sumTake l (i + 1)⟩ := by
  induction l generalizing c i with
  | nil => simp at h
  | cons x xs ih =>
    cases i with
    | zero => simp [computeCumulative, sumTake]
    | succ n =>
      have hn : n < xs.length := by simpa using h
      simp only [computeCumulative, List.getD_cons_succ]
      rw [ih (c + x.value) n hn, sumTake_succ_cons, sumTake_succ_cons]
      simp [add_assoc]

lemma cc_type (c : ℚ) (l : List WItem) (i : ℕ) (h : i < l.length) :
    ((computeCumulative c l).getD i dC).type = (l.getD i dW).type := by
  rw [cc_getD c l i h]

lemma cc_value (c : ℚ) (l : List WItem) (i : ℕ) (h : i < l.length) :
    ((computeCumulative c l).getD i dC).value = (l.getD i dW).value := by
  rw [cc_getD c l i h]

lemma cc_start (c : ℚ) (l : List WItem) (i : ℕ) (h : i < l.length) :
    ((computeCumulative c l).getD i dC).start = c + sumTake l i := by
  rw [cc_getD c l i h]

lemma cc_endVal (c : ℚ) (l : List WItem) (i : ℕ) (h : i < l.length) :
    ((computeCumulative c l).getD i dC).endVal = c + sumTake l (i + 1) := by
  rw [cc_getD c l i h]

lemma sumTake_getD (l : List WItem) (i : ℕ) (h : i < l.length) :
    sumTake l (i + 1) = sumTake l i + (l.getD i dW).value := by
  induction l generalizing i with
  | nil => simp at h
  | cons x xs ih =>
    cases i with
    | zero => simp [sumTake]
    | succ n =>
      have hn : n < xs.length := by simpa using h
      rw [sumTake_succ_cons, sumTake_succ_cons, List.getD_cons_succ, ih n hn, add_assoc]

lemma deltaItems_len (p : JSNum × ℚ) (l : List (JSNum × ℚ)) :
    (deltaItems p l).length = l.length := by
  induction l generalizing p with
  | nil => rfl
  | cons c t ih => simp [deltaItems, ih]

lemma deltaItems_kind (p : JSNum × ℚ) (l : List (JSNum × ℚ)) (j : ℕ) (hj : j < l.length) :
    (((deltaItems p l).getD j dW).type =
      if 0 ≤ ((deltaItems p l).getD j dW).value then WKind.increase else WKind.decrease)
    ∧ ((deltaItems p l).getD j dW).type ≠ WKind.base := by
  induction l generalizing p j with
  | nil => simp at hj
  | cons c t ih =>
    cases j with
    | zero =>
      refine ⟨by simp [deltaItems], ?_⟩
      simp only [deltaItems, List.getD_cons_zero]
      split <;> simp
    | succ n =>
      have hn : n < t.length := by simpa using hj
      simpa [deltaItems, List.getD_cons_succ] using ih c n hn

lemma stripWs_eq_filter (l : List Char) : stripWs l = l.filter (fun c => !(jsIsWs c)) := by
  induction l with
  | nil => rfl
  | cons c t ih => by_cases h : jsIsWs c <;> simp [stripWs, h, ih]

lemma commaToDot_eq_map (l : List Char) :
    commaToDot l = l.map (fun c => if c = ',' then '.' else c) := by
  induction l with
  | nil => rfl
  | cons c t ih => simp [commaToDot, ih]

lemma keepNumeric_eq_filter (l : List Char) : keepNumeric l = l.filter numKeep := by
  induction l with
  | nil => rfl
  | cons c t ih => by_cases h : numKeep c <;> simp [keepNumeric, h, ih]

/-- C4: on every input string the numeric normalizer follows exactly the
steps the specification lists: trim; empty or a case-insensitive nan
gives not-a-number; remove all whitespace; replace every comma with a
decimal point; remove every character outside digits, e, E, plus, dot
and minus; parse the remainder as a float; and return not-a-number
unless the parse result is finite.  The left side is the source
translation of parseNum, the right side is built from the words of the
specification. -/
theorem parseNum_follows_spec_steps (s : List Char) : parseNum s = parseNumSpec s := by
  simp only [parseNum, parseNumSpec, stripWs_eq_filter, commaToDot_eq_map, keepNumeric_eq_filter]
  by_cases h1 : jsTrim s = []
  · simp [h1]
  · by_cases h2 : lowerL (jsTrim s) = "nan".data <;> simp [h1, h2]

/-- C1: the second script variant, computeWaterfall, does not skip a row
whose GDP is NaN: on the series (2000, 5), (2001, NaN), (2002, 7) it
emits an item for the invalid middle row and computes both neighbouring
deltas as if that row had value zero (delta minus five, then plus
seven), where the design - and script.js buildWaterfall, shown in the
second conjunct - skips the invalid row and spans one delta of two
across the gap from the previous valid value. -/
theorem computeWaterfall_treats_nan_as_zero :
    computeWaterfall
      [⟨JSNum.num 2000, some 5⟩, ⟨JSNum.num 2001, none⟩, ⟨JSNum.num 2002, some 7⟩] =
      [⟨PType.start, JSNum.num 2000, some 5, 0, 5⟩,
       ⟨PType.decrease, JSNum.num 2001, some (-5), 5, 0⟩,
       ⟨PType.increase, JSNum.num 2002, some 7, 0, 7⟩]
    ∧ buildWaterfall
        [("Germany".data,
          [⟨"Germany".data, JSNum.num 2000, some 5⟩,
           ⟨"Germany".data, JSNum.num 2001, none⟩,
           ⟨"Germany".data, JSNum.num 2002, some 7⟩])] "Germany".data =
      [⟨JSNum.num 2000, 5, WKind.base⟩, ⟨JSNum.num 2002, 2, WKind.increase⟩] := by
  decide

/-- C3 counterexample: on the German-locale string the normalizer does
not yield 1000.5.  The comma becomes a second decimal point next to the
dot thousands separator, and float parsing takes the longest valid
prefix of the mangled string, so the result is 1. -/
theorem parseNum_german_locale_counterexample :
    parseNum "1.000,5".data = some 1 ∧ parseNum "1.000,5".data ≠ some ((2001 : ℚ) / 2) := by
  decide

/-- C3 amended: on the given header and the two Germany rows the
normalizer yields GDP values 1 and 1100, and the built waterfall is a
Base item with end 1 followed by an Increase item with delta 1099 and
end 1100. -/
theorem pipeline_german_rows_amended :
    parseNum "1.000,5".data = some 1 ∧ parseNum "1100".data = some 1100 ∧
    pipelineWaterfall
      [[("Country Name".data, "Germany".data), ("Year".data, "2000".data),
        ("GDP".data, "1.000,5".data)],
       [("Country Name".data, "Germany".data), ("Year".data, "2001".data),
        ("GDP".data, "1100".data)]]
      "Germany".data =
      [⟨JSNum.num 2000, 1, WKind.base, 0, 1, 1⟩,
       ⟨JSNum.num 2001, 1099, WKind.increase, 1, 1100, 1100⟩] := by
  decide

lemma isNaN_false_iff (n : JSNum) : n.isNaN = false ↔ n ≠ JSNum.nan := by
  cases n <;> simp [JSNum.isNaN]

lemma isEmpty_false_iff (l : List Char) : l.isEmpty = false ↔ l ≠ [] := by
  cases l <;> simp

/-- C7 counterexample: a row whose year cell is the empty string is
kept by the cleaning stage (JavaScript number coercion sends the empty
string to 0, which is not NaN), although the empty string does not
parse as an integer; the claim says such a row is dropped. -/
theorem cleaning_keeps_empty_year_row :
    cleanedOf [[("Country Name".data, "Germany".data), ("Year".data, "".data),
                ("GDP".data, "5".data)]] =
      [⟨"Germany".data, JSNum.num 0, some 5⟩]
    ∧ isIntL "".data = false := by
  decide

/-- C7 amended: the cleaning stage keeps a mapped row exactly when the
country cell is present and non-empty and the JavaScript numeric
coercion of the year cell is not NaN; integer parsing of the year is
not required. -/
theorem cleaning_keep_characterization (ck yk gk : Option (List Char)) (r : Row) :
    keepB (toRecord ck yk gk r) = true ↔
      ((rowGet r ck).getD [] ≠ [] ∧ jsToNumberU (rowGet r yk) ≠ JSNum.nan) := by
  simp [keepB, toRecord, Bool.and_eq_true, Bool.not_eq_true', isNaN_false_iff, isEmpty_false_iff]

/-- C2: in every built and cumulated waterfall, every item after the
first starts where the previous item ends; every item satisfies end
minus start equals its value (the delta for non-base items); and for
every non-base item the sign of the delta determines the kind: at
least zero gives Increase, negative gives Decrease. -/
theorem waterfall_chain_invariants (g : List (List Char × List Record)) (c : List Char)
    (i : ℕ) (h : i < (computeCumulative 0 (buildWaterfall g c)).length) :
    (0 < i →
      ((computeCumulative 0 (buildWaterfall g c)).getD i dC).start =
        ((computeCumulative 0 (buildWaterfall g c)).getD (i - 1) dC).endVal)
    ∧ ((computeCumulative 0 (buildWaterfall g c)).getD i dC).endVal -
        ((computeCumulative 0 (buildWaterfall g c)).getD i dC).start =
        ((computeCumulative 0 (buildWaterfall g c)).getD i dC).value
    ∧ (0 < i →
        (0 ≤ ((computeCumulative 0 (buildWaterfall g c)).getD i dC).value →
          ((computeCumulative 0 (buildWaterfall g c)).getD i dC).type = WKind.increase)
        ∧ (((computeCumulative 0 (buildWaterfall g c)).getD i dC).value < 0 →
          ((computeCumulative 0 (buildWaterfall g c)).getD i dC).type = WKind.decrease)) := by
  have hl : i < (buildWaterfall g c).length := by rwa [cc_len] at h
  refine ⟨?_, ?_, ?_⟩
  · intro hi
    have h1 : i - 1 < (buildWaterfall g c).length := lt_of_le_of_lt (Nat.sub_le i 1) hl
    rw [cc_start 0 _ i hl, cc_endVal 0 _ (i - 1) h1, Nat.sub_add_cancel hi]
  · rw [cc_start 0 _ i hl, cc_endVal 0 _ i hl, cc_value 0 _ i hl, sumTake_getD _ i hl]
    ring
  · intro hi
    rw [cc_value 0 _ i hl, cc_type 0 _ i hl]
    cases hv : validOf g c with
    | nil =>
      rw [buildWaterfall, hv] at hl
      simp [mkItems] at hl
    | cons f rest =>
      have hL : buildWaterfall g c = ⟨f.1, f.2, WKind.base⟩ :: deltaItems f rest := by
        rw [buildWaterfall, hv]
        rfl
      have hb : i - 1 < rest.length := by
        rw [hL] at hl
        simp only [List.length_cons, deltaItems_len] at hl
        omega
      rw [hL, show i = (i - 1) + 1 from (Nat.sub_add_cancel hi).symm, List.getD_cons_succ]
      have hk := (deltaItems_kind f rest (i - 1) hb).1
      constructor
      · intro hge
        rw [hk, if_pos hge]
      · intro hlt
        rw [hk, if_neg (not_le.mpr hlt)]

/-- C2 witness: on the concrete two-year series with GDP 5 then 3, the
second computed item starts at the first item's end and its negative
delta makes it a Decrease. -/
theorem waterfall_chain_invariants_witness :
    ((computeCumulative 0 (buildWaterfall
        [("A".data, [⟨"A".data, JSNum.num 2000, some 5⟩, ⟨"A".data, JSNum.num 2001, some 3⟩])]
        "A".data)).getD 1 dC).start =
      ((computeCumulative 0 (buildWaterfall
        [("A".data, [⟨"A".data, JSNum.num 2000, some 5⟩, ⟨"A".data, JSNum.num 2001, some 3⟩])]
        "A".data)).getD 0 dC).endVal
    ∧ ((computeCumulative 0 (buildWaterfall
        [("A".data, [⟨"A".data, JSNum.num 2000, some 5⟩, ⟨"A".data, JSNum.num 2001, some 3⟩])]
        "A".data)).getD 1 dC).type = WKind.decrease := by
  have H := waterfall_chain_invariants
    [("A".data, [⟨"A".data, JSNum.num 2000, some 5⟩, ⟨"A".data, JSNum.num 2001, some 3⟩])]
    "A".data 1 (by decide)
  exact ⟨H.1 (by decide), (H.2.2 (by decide)).2 (by decide)⟩

/-- C5: if the valid-GDP filtered series is empty, the cumulated
waterfall is empty; otherwise the first item is a Base item with start
0, end the first valid GDP value and cumulative that same value, the
output has one item per valid row, and no later item is Base (so the
Base item is unique). -/
theorem waterfall_base_anchor (g : List (List Char × List Record)) (c : List Char) :
    (validOf g c = [] → computeCumulative 0 (buildWaterfall g c) = [])
    ∧ ∀ f rest, validOf g c = f :: rest →
        (computeCumulative 0 (buildWaterfall g c)).getD 0 dC =
          ⟨f.1, f.2, WKind.base, 0, f.2, f.2⟩
        ∧ (computeCumulative 0 (buildWaterfall g c)).length = rest.length + 1
        ∧ ∀ i, 0 < i → i < (computeCumulative 0 (buildWaterfall g c)).length →
            ((computeCumulative 0 (buildWaterfall g c)).getD i dC).type ≠ WKind.base := by
  constructor
  · intro h
    rw [buildWaterfall, h]
    rfl
  · intro f rest h
    have hL : buildWaterfall g c = ⟨f.1, f.2, WKind.base⟩ :: deltaItems f rest := by
      rw [buildWaterfall, h]
      rfl
    refine ⟨?_, ?_, ?_⟩
    · rw [hL]
      simp [computeCumulative]
    · rw [hL, cc_len]
      simp [deltaItems_len]
    · intro i hi hlen
      have hl2 : i < (buildWaterfall g c).length := by rwa [cc_len] at hlen
      have hb : i - 1 < rest.length := by
        rw [hL] at hl2
        simp only [List.length_cons, deltaItems_len] at hl2
        omega
      rw [cc_type 0 _ i hl2, hL,
        show i = (i - 1) + 1 from (Nat.sub_add_cancel hi).symm, List.getD_cons_succ]
      exact (deltaItems_kind f rest (i - 1) hb).2

/-- C5 witness: on the concrete two-year series with GDP 5 then 7, the
first computed item is the Base anchor with start 0, end 5 and
cumulative 5, and the second item is not Base. -/
theorem waterfall_base_anchor_witness :
    (computeCumulative 0 (buildWaterfall
        [("A".data, [⟨"A".data, JSNum.num 2000, some 5⟩, ⟨"A".data, JSNum.num 2001, some 7⟩])]
        "A".data)).getD 0 dC = ⟨JSNum.num 2000, 5, WKind.base, 0, 5, 5⟩
    ∧ ((computeCumulative 0 (buildWaterfall
        [("A".data, [⟨"A".data, JSNum.num 2000, some 5⟩, ⟨"A".data, JSNum.num 2001, some 7⟩])]
        "A".data)).getD 1 dC).type ≠ WKind.base := by
  have H := (waterfall_base_anchor
    [("A".data, [⟨"A".data, JSNum.num 2000, some 5⟩, ⟨"A".data, JSNum.num 2001, some 7⟩])]
    "A".data).2 (JSNum.num 2000, 5) [(JSNum.num 2001, 7)] (by decide)
  exact ⟨H.1, H.2.2 1 (by decide) (by decide)⟩

/-- C6: every non-base waterfall item whose delta is exactly zero is
classified Increase (the comparison in the source is delta at least
zero). -/
theorem zero_delta_is_increase (g : List (List Char × List Record)) (c : List Char)
    (i : ℕ) (h1 : 0 < i) (h2 : i < (buildWaterfall g c).length)
    (h3 : ((buildWaterfall g c).getD i dW).value = 0) :
    ((buildWaterfall g c).getD i dW).type = WKind.increase := by
  cases hv : validOf g c with
  | nil =>
    rw [buildWaterfall, hv] at h2
    simp [mkItems] at h2
  | cons f rest =>
    have hL : buildWaterfall g c = ⟨f.1, f.2, WKind.base⟩ :: deltaItems f rest := by
      rw [buildWaterfall, hv]
      rfl
    have hb : i - 1 < rest.length := by
      rw [hL] at h2
      simp only [List.length_cons, deltaItems_len] at h2
      omega
    rw [hL, show i = (i - 1) + 1 from (Nat.sub_add_cancel h1).symm, List.getD_cons_succ] at h3 ⊢
    rw [(deltaItems_kind f rest (i - 1) hb).1, h3]
    norm_num

/-- C6 witness: on the concrete series 5 then 5 the delta of the second
item is zero and its kind is Increase. -/
theorem zero_delta_is_increase_witness :
    ((buildWaterfall
        [("A".data, [⟨"A".data, JSNum.num 2000, some 5⟩, ⟨"A".data, JSNum.num 2001, some 5⟩])]
        "A".data).getD 1 dW).type = WKind.increase :=
  zero_delta_is_increase _ _ 1 (by decide) (by decide) (by decide)

/-- C8 counterexample: no selector of the shape the claim describes
(case-insensitive substring match on year followed by one fixed
positional or literal default, or no default) coincides with the year
selection the code performs, because the code falls back to a second,
data-dependent substring search for yr: the three headers used in the
proof force a positional default to be both position one and position
two, a literal default to be both the string Yr and absent. -/
theorem yearKey_no_fixed_default :
    ¬ ∃ d : CDefault, ∀ keys : List (List Char),
        claimYearMethod d keys = yearKeySel keys := by
  rintro ⟨d, hAll⟩
  have h1 := hAll ["x".data, "Yr".data]
  have h2 := hAll ["x".data, "y".data, "Yr".data]
  have h3 := hAll ["a".data, "b".data]
  rw [show yearKeySel ["x".data, "Yr".data] = some "Yr".data from by decide] at h1
  rw [show yearKeySel ["x".data, "y".data, "Yr".data] = some "Yr".data from by decide] at h2
  rw [show yearKeySel ["a".data, "b".data] = none from by decide] at h3
  simp only [claimYearMethod,
    show (["x".data, "Yr".data] : List (List Char)).find?
      (fun k => containsCI k "year".data) = none from by decide] at h1
  simp only [claimYearMethod,
    show (["x".data, "y".data, "Yr".data] : List (List Char)).find?
      (fun k => containsCI k "year".data) = none from by decide] at h2
  simp only [claimYearMethod,
    show (["a".data, "b".data] : List (List Char)).find?
      (fun k => containsCI k "year".data) = none from by decide] at h3
  cases d with
  | pos n =>
    simp only [applyCDefault] at h1 h2
    rcases n with _ | _ | n
    · exact absurd h1 (by decide)
    · exact absurd h2 (by decide)
    · simp [List.getElem?_cons_succ] at h1
  | lit s =>
    simp only [applyCDefault] at h3
    exact Option.noConfusion h3
  | noKey =>
    simp only [applyCDefault] at h1
    exact Option.noConfusion h1

/-- C8 amended: key selection is a pure function of the ordered header
key list of the first row, so two runs on the same header choose the
same country, year and GDP columns; when no key contains yr or year
the year selection is undefined (no fixed default), and when no key
contains country the country selection falls back to the second
column. -/
theorem key_selection_deterministic :
    (∀ d1 d2 : List Row, headerKeysOf d1 = headerKeysOf d2 →
      keySelections d1 = keySelections d2)
    ∧ (∀ keys : List (List Char),
        keys.find? (fun k => containsCI k "yr".data || containsCI k "year".data) = none →
        yearKeySel keys = none)
    ∧ (∀ keys : List (List Char),
        keys.find? (fun k => containsCI k "country".data) = none →
        countryKeySel keys = keys[1]?) := by
  refine ⟨?_, ?_, ?_⟩
  · intro d1 d2 h
    simp only [keySelections, h]
  · intro keys h
    have h2 : keys.find? (fun k => containsCI k "year".data) = none := by
      rw [List.find?_eq_none] at h ⊢
      intro x hx hb
      exact h x hx (by simp [hb])
    rw [yearKeySel, h2, h]
    rfl
  · intro keys h
    rw [countryKeySel, h]
    rfl

/-- C8 witness: two tables with the same single-column header Year get
the same key selections; a header with no yr-like key selects no year
column; a header with no country-like key selects the second column as
the country. -/
theorem key_selection_deterministic_witness :
    keySelections [[("Year".data, "1".data)]] = keySelections [[("Year".data, "2".data)]]
    ∧ yearKeySel ["a".data] = none
    ∧ countryKeySel ["a".data, "b".data] = (["a".data, "b".data] : List (List Char))[1]? :=
  ⟨key_selection_deterministic.1 _ _ (by decide),
   key_selection_deterministic.2.1 _ (by decide),
   key_selection_deterministic.2.2 _ (by decide)⟩

lemma mem_insertY {r x : Record} : ∀ {l : List Record}, r ∈ insertY x l → r = x ∨ r ∈ l := by
  intro l
  induction l with
  | nil =>
    intro h
    simpa [insertY] using h
  | cons y ys ih =>
    intro h
    by_cases hc : jsLeY y.year x.year
    · simp only [insertY, if_pos hc] at h
      rcases List.mem_cons.mp h with h | h
      · exact Or.inr (List.mem_cons.mpr (Or.inl h))
      · rcases ih h with h | h
        · exact Or.inl h
        · exact Or.inr (List.mem_cons.mpr (Or.inr h))
    · simp only [insertY, if_neg hc] at h
      rcases List.mem_cons.mp h with h | h
      · exact Or.inl h
      · exact Or.inr h

lemma mem_sortY_aux : ∀ (l acc : List Record) (r : Record),
    r ∈ List.foldl (fun a x => insertY x a) acc l → r ∈ acc ∨ r ∈ l := by
  intro l
  induction l with
  | nil =>
    intro acc r h
    exact Or.inl h
  | cons x xs ih =>
    intro acc r h
    rcases ih (insertY x acc) r h with h1 | h1
    · rcases mem_insertY h1 with h2 | h2
      · exact Or.inr (List.mem_cons.mpr (Or.inl h2))
      · exact Or.inl h2
    · exact Or.inr (List.mem_cons.mpr (Or.inr h1))

lemma mem_sortY {r : Record} {l : List Record} (h : r ∈ sortY l) : r ∈ l := by
  rcases mem_sortY_aux l [] r h with h1 | h1
  · simp at h1
  · exact h1

/-- C10: the waterfall builder is total and returns the empty item list
both for a country name with no group in the dataset (through the
or-empty fallback on the failed lookup) and for a country all of whose
rows have an invalid GDP - the two cases give the same result. -/
theorem buildWaterfall_total_empty_cases (g : List (List Char × List Record)) (c : List Char) :
    (lookupA g c = none → buildWaterfall g c = [])
    ∧ ∀ l, lookupA g c = some l → (∀ r ∈ l, r.GDP = none) → buildWaterfall g c = [] := by
  constructor
  · intro h
    rw [buildWaterfall, validOf, h]
    rfl
  · intro l h hall
    have hv : validOf g c = [] := by
      rw [validOf, h]
      simp only [Option.getD_some]
      rw [List.filterMap_eq_nil_iff]
      intro r hr
      rw [hall r (mem_sortY hr)]
      rfl
    rw [buildWaterfall, hv]
    rfl

/-- C10 witness: with one country A whose single row has NaN GDP, the
absent name B and the all-invalid name A both build the empty list. -/
theorem buildWaterfall_total_witness :
    buildWaterfall [("A".data, [⟨"A".data, JSNum.num 2000, none⟩])] "B".data = []
    ∧ buildWaterfall [("A".data, [⟨"A".data, JSNum.num 2000, none⟩])] "A".data = [] :=
  ⟨(buildWaterfall_total_empty_cases _ _).1 (by decide),
   (buildWaterfall_total_empty_cases _ _).2 [⟨"A".data, JSNum.num 2000, none⟩]
     (by decide) (by decide)⟩
